import Mathlib

set_option linter.unusedVariables false

/-!
Shallow embedding of `pico.py`, a decoder for a proprietary binary telemetry
protocol, together with theorems checking the natural-language specification
against the code.

Modelling conventions:
* Byte strings are `List ℕ` (each entry is one byte value).
* Python `float` arithmetic is idealised over `ℚ`; `round(x, 2)` and the
  `"%.2f"` format are both modelled by `round2` below, and `round(x)` by
  Mathlib's `round`.  The same rounding model is used on the code side and on
  the specification side, so comparisons between the two are unaffected.
* A Python runtime exception (IndexError, KeyError, TypeError from unpacking
  `None`, …) is modelled by `Option.none`: the surrounding computation
  produces no value.
-/

namespace Pico

/-- A decoded field value: either a pair of 16-bit unsigned integers, or a
text payload kept as its raw bytes.  The `0x03` sentinel `7f ff ff ff` decodes
to the empty Python string, i.e. `str []`. -/
inductive FieldVal where
  | pair (a b : ℕ) : FieldVal
  | str (s : List ℕ) : FieldVal
deriving DecidableEq, Repr

/-- `int.from_bytes(data, "big")`: big-endian integer of a byte list. -/
def be16 (l : List ℕ) : ℕ := l.foldl (fun a b => 256 * a + b) 0

/-- Index of the first occurrence of the two-byte terminator `00 FF`
(Python `bytes.find(b"\x00\xff")`, with `none` for `-1`). -/
def findTerm : List ℕ → Option ℕ
  | [] => none
  | a :: rest =>
    if a = 0 ∧ rest.take 1 = [255] then some 0
    else (findTerm rest).map (· + 1)

/-- `getNextField(response)` from `pico.py`: decode one tagged field from the
head of `response`, returning the field number, the decoded value and the
remaining bytes.  An unrecognised field type (and a response too short to
index bytes 0 and 1) yields `none`: the Python function falls through and
returns `None`, which the caller cannot unpack. -/
def getNextField (response : List ℕ) : Option (ℕ × FieldVal × List ℕ) :=
  match response with
  | field_nr :: field_type :: _ =>
    if field_type = 0x01 then
      some (field_nr,
        .pair (be16 (((response.drop 2).take 4).take 2))
          (be16 ((((response.drop 2).take 4).drop 2).take 2)),
        response.drop 7)
    else if field_type = 0x03 then
      if (response.drop 7).take 4 = [0x7f, 0xff, 0xff, 0xff] then
        some (field_nr, .str [], response.drop 12)
      else
        some (field_nr,
          .pair (be16 (((response.drop 7).take 4).take 2))
            (be16 ((((response.drop 7).take 4).drop 2).take 2)),
          response.drop 12)
    else if field_type = 0x04 then
      match findTerm (response.drop 7) with
      | some index =>
        some (field_nr, .str ((response.drop 7).take index),
          (response.drop 7).drop (index + 2))
      | none =>
        some (field_nr, .str (response.drop 7).dropLast, (response.drop 7).drop 1)
    else
      none
  | _ => none

/-- Every successfully decoded field consumes at least 7 bytes of input. -/
theorem getNextField_shrinks (response : List ℕ) (n : ℕ) (v : FieldVal)
    (rest : List ℕ) (h : getNextField response = some (n, v, rest)) :
    rest.length ≤ response.length - 7 := by
  match response with
  | [] => simp [getNextField] at h
  | [x] => simp [getNextField] at h
  | field_nr :: field_type :: tail =>
    simp only [getNextField] at h
    split_ifs at h with h1 h3 hs h4
    · simp only [Option.some.injEq, Prod.mk.injEq] at h
      obtain ⟨-, -, hr⟩ := h
      rw [← hr]
      simp only [List.length_drop, List.length_cons]
      omega
    · simp only [Option.some.injEq, Prod.mk.injEq] at h
      obtain ⟨-, -, hr⟩ := h
      rw [← hr]
      simp only [List.length_drop, List.length_cons]
      omega
    · simp only [Option.some.injEq, Prod.mk.injEq] at h
      obtain ⟨-, -, hr⟩ := h
      rw [← hr]
      simp only [List.length_drop, List.length_cons]
      omega
    · split at h
      · simp only [Option.some.injEq, Prod.mk.injEq] at h
        obtain ⟨-, -, hr⟩ := h
        rw [← hr]
        simp only [List.length_drop, List.length_cons]
        omega
      · simp only [Option.some.injEq, Prod.mk.injEq] at h
        obtain ⟨-, -, hr⟩ := h
        rw [← hr]
        simp only [List.length_dropLast, List.length_drop, List.length_cons]
        omega

/-- Python `dict[k] = v` on an insertion-ordered dict: replace in place if the
key exists, else append. -/
def dictInsert {α : Type} : List (ℕ × α) → ℕ → α → List (ℕ × α)
  | [], n, v => [(n, v)]
  | (k, w) :: rest, n, v =>
    if k = n then (k, v) :: rest else (k, w) :: dictInsert rest n v

/-- Python `dict[k]` lookup (`none` models `KeyError`). -/
def dictGet {α : Type} : List (ℕ × α) → ℕ → Option α
  | [], _ => none
  | (k, w) :: rest, n => if k = n then some w else dictGet rest n

/-- The field-extraction loop of `parseResponse`: while more than 6 bytes
remain, decode one field and store it under its field number.  `none` models
the `TypeError` raised when `getNextField` returns `None` for an unrecognised
field type. -/
def parseLoop (response : List ℕ) (acc : List (ℕ × FieldVal)) :
    Option (List (ℕ × FieldVal)) :=
  if h : 6 < response.length then
    match hg : getNextField response with
    | none => none
    | some (n, v, rest) => parseLoop rest (dictInsert acc n v)
  else
    some acc
termination_by response.length
decreasing_by
  have := getNextField_shrinks response n v rest hg
  omega

/-- `parseResponse(response)` from `pico.py`: strip the 14-byte header, then
extract fields while more than 6 bytes remain. -/
def parseResponse (response : List ℕ) : Option (List (ℕ × FieldVal)) :=
  parseLoop (response.drop 14) []

/-- Loop exit: with at most 6 bytes left, the accumulated dict is returned. -/
theorem parseLoop_exit (r : List ℕ) (acc : List (ℕ × FieldVal))
    (h : ¬ 6 < r.length) : parseLoop r acc = some acc := by
  unfold parseLoop
  rw [dif_neg h]

/-- Loop crash: an unrecognised field type aborts the whole parse. -/
theorem parseLoop_none (r : List ℕ) (acc : List (ℕ × FieldVal))
    (h : 6 < r.length) (hg : getNextField r = none) : parseLoop r acc = none := by
  unfold parseLoop
  rw [dif_pos h]
  split
  · rfl
  · next n v rest heq => rw [hg] at heq; cases heq

/-- Loop step: a decoded field is stored under its field number and the loop
continues on the remaining bytes. -/
theorem parseLoop_step (r : List ℕ) (acc : List (ℕ × FieldVal)) (n : ℕ)
    (v : FieldVal) (rest : List ℕ) (h : 6 < r.length)
    (hg : getNextField r = some (n, v, rest)) :
    parseLoop r acc = parseLoop rest (dictInsert acc n v) := by
  conv_lhs => rw [parseLoop.eq_def]
  rw [dif_pos h]
  split
  · next heq => rw [hg] at heq; cases heq
  · next n' v' rest' heq =>
    rw [hg] at heq
    simp only [Option.some.injEq, Prod.mk.injEq] at heq
    obtain ⟨rfl, rfl, rfl⟩ := heq
    rfl

/-! ### CRC engine (`add_crc` and `crcmod.mkCrcFun(0x11189, 0, False, 0)`) -/

/-- One shift step of the bitwise MSB-first CRC-16 with generator polynomial
`0x11189` (top bit implied, so the XOR constant is `0x1189`). -/
def crcUpdateBit (crc : ℕ) : ℕ :=
  if crc < 32768 then crc * 2 else Nat.xor (crc * 2 - 65536) 0x1189

/-- Iterate `crcUpdateBit`. -/
def crcBits : ℕ → ℕ → ℕ
  | 0, crc => crc
  | n + 1, crc => crcBits n (crcUpdateBit crc)

/-- Absorb one input byte: XOR it into the high byte of the register, then
shift eight times. -/
def crcByte (crc b : ℕ) : ℕ := crcBits 8 (Nat.xor crc (b * 256))

/-- The checksum of a byte list: initial value 0, not reversed, no output
XOR — the function built by `crcmod.mkCrcFun` in `add_crc`. -/
def crc16 (data : List ℕ) : ℕ := data.foldl crcByte 0

theorem crcUpdateBit_lt (crc : ℕ) (h : crc < 65536) : crcUpdateBit crc < 65536 := by
  unfold crcUpdateBit
  split_ifs with h1
  · omega
  · have h2 : crc * 2 - 65536 < 2 ^ 16 := by norm_num; omega
    have h3 : (0x1189 : ℕ) < 2 ^ 16 := by norm_num
    have h4 := Nat.xor_lt_two_pow h2 h3
    norm_num at h4
    exact h4

theorem crcBits_lt (n crc : ℕ) (h : crc < 65536) : crcBits n crc < 65536 := by
  induction n generalizing crc with
  | zero => exact h
  | succ n ih => exact ih _ (crcUpdateBit_lt crc h)

theorem crcByte_lt (crc b : ℕ) (h : crc < 65536) (hb : b < 256) :
    crcByte crc b < 65536 := by
  unfold crcByte
  refine crcBits_lt 8 _ ?_
  have h2 : crc < 2 ^ 16 := by norm_num; omega
  have h3 : b * 256 < 2 ^ 16 := by norm_num; omega
  have h4 := Nat.xor_lt_two_pow h2 h3
  norm_num at h4
  exact h4

/-- The register stays a 16-bit value, so `crc_int.to_bytes(2, "big")` in
`add_crc` never overflows. -/
theorem crc16_lt (data : List ℕ) (hd : ∀ b ∈ data, b < 256) :
    crc16 data < 65536 := by
  unfold crc16
  suffices hs : ∀ c, c < 65536 → data.foldl crcByte c < 65536 from hs 0 (by norm_num)
  induction data with
  | nil => intro c hc; exact hc
  | cons a l ih =>
    intro c hc
    simp only [List.foldl_cons]
    exact ih (fun b hb => hd b (List.mem_cons_of_mem _ hb)) _
      (crcByte_lt _ _ hc (hd a (List.mem_cons_self _ _)))

/-- Normalise one Python slice index: a negative index counts from the end,
and the result is clamped to `[0, len]`. -/
def pySliceIdx (len : ℕ) (i : ℤ) : ℕ :=
  (max 0 (min (len : ℤ) (if i < 0 then i + len else i))).toNat

/-- Python `l[start:stop]` (step 1). -/
def pySlice (l : List ℕ) (start stop : ℤ) : List ℕ :=
  (l.take (pySliceIdx l.length stop)).drop (pySliceIdx l.length start)

/-- `add_crc(data, offset, length)` from `pico.py`: compute the checksum of
`data[offset:length]` and append it as two big-endian bytes. -/
def add_crc (data : List ℕ) (offset len : ℤ) : List ℕ :=
  data ++ [crc16 (pySlice data offset len) / 256, crc16 (pySlice data offset len) % 256]

/-- `add_crc(data)` with the Python default arguments `offset=1, length=-1`. -/
def add_crc_default (data : List ℕ) : List ℕ :=
  add_crc data 1 (-1)

/-! ### Rounding and temperature conversion -/

/-- `round(x, 2)` and the `"%.2f"` format, idealised over `ℚ`. -/
def round2 (q : ℚ) : ℚ := ((round (q * 100) : ℤ) : ℚ) / 100

/-- `toTemperature(temp)` from `pico.py`: reinterpret the raw value as a
signed 16-bit integer (subtract 65536 when strictly above 32768), then
convert tenths of a degree Celsius to Kelvin, rounded to two decimals. -/
def toTemperature (temp : ℕ) : ℚ :=
  round2 (((if 32768 < temp then (temp : ℤ) - 65536 else (temp : ℤ)) : ℚ) / 10
    + 27315 / 100)

/-! ### Sensor registry builder (`createSensorList`) -/

/-- Semantic sensor type assigned by `createSensorList`.  `raw code` stands
for an unrecognised integer type code, which the code stores unchanged. -/
inductive SType where
  | null
  | volt
  | current
  | thermometer
  | barometer
  | ohm
  | tank
  | battery
  | xx
  | raw (code : ℕ)
deriving DecidableEq, Repr

/-- `value[0]` of a decoded field when it is a pair of integers.  (Indexing a
text payload would not produce an integer in Python; such access is modelled
as failure, and no claim depends on that corner.) -/
def FieldVal.fst? : FieldVal → Option ℕ
  | .pair a _ => some a
  | .str _ => none

/-- `value[1]` of a decoded field when it is a pair of integers. -/
def FieldVal.snd? : FieldVal → Option ℕ
  | .pair _ b => some b
  | .str _ => none

/-- The bytes of the Python string literal `"PICO INTERNAL"`. -/
def picoInternal : List ℕ :=
  [0x50, 0x49, 0x43, 0x4F, 0x20, 0x49, 0x4E, 0x54, 0x45, 0x52, 0x4E, 0x41, 0x4C]

/-- The `fluid` lookup table of `createSensorList`. -/
def fluidTable : List String := ["Unknown", "freshWater", "fuel", "wasteWater"]

/-- The `fluid_type` lookup table of `createSensorList`. -/
def fluidTypeTable : List String := ["Unknown", "fresh water", "diesel", "blackwater"]

/-- What one iteration of the `createSensorList` loop derives from a config
slot, before the running offset is attached. -/
structure SlotInterp where
  id : ℕ
  stype : SType
  size : ℕ
  name : Option FieldVal
  capacity : Option ℚ
  fluidTy : Option String
  fluidKind : Option String
  capacityNominal : Option ℚ
deriving DecidableEq, Repr

/-- Interpret one config slot as `createSensorList` does: read the id from
field 0 and the type code from field 1, dispatch on the type code to an
element size (`elementSize`) and the type-specific static attributes.  A
missing descriptor field or an out-of-range fluid index is a Python
`KeyError`/`IndexError`, modelled as `none`. -/
def interpretSlot (slot : List (ℕ × FieldVal)) : Option SlotInterp := do
  let id ← (← dictGet slot 0).snd?
  let ty ← (← dictGet slot 1).snd?
  if ty = 0 then
    pure ⟨id, .null, 0, none, none, none, none, none⟩
  else if ty = 1 then do
    let name ← dictGet slot 3
    pure ⟨id, .volt, if name = .str picoInternal then 6 else 1,
      some name, none, none, none, none⟩
  else if ty = 2 then do
    let name ← dictGet slot 3
    pure ⟨id, .current, 2, some name, none, none, none, none⟩
  else if ty = 3 then do
    let name ← dictGet slot 3
    pure ⟨id, .thermometer, 1, some name, none, none, none, none⟩
  else if ty = 5 then do
    let name ← dictGet slot 3
    pure ⟨id, .barometer, 2, some name, none, none, none, none⟩
  else if ty = 6 then do
    let name ← dictGet slot 3
    pure ⟨id, .ohm, 1, some name, none, none, none, none⟩
  else if ty = 8 then do
    let name ← dictGet slot 3
    let cap ← (← dictGet slot 7).snd?
    let fl ← (← dictGet slot 6).snd?
    let ft ← fluidTypeTable.get? fl
    let f ← fluidTable.get? fl
    pure ⟨id, .tank, 1, some name, some ((cap : ℚ) / 10), some ft, some f, none⟩
  else if ty = 9 then do
    let name ← dictGet slot 3
    let cap ← (← dictGet slot 5).snd?
    pure ⟨id, .battery, 5, some name, none, none, none,
      some (((cap : ℚ) * 36) * 12)⟩
  else if ty = 14 then
    pure ⟨id, .xx, 1, none, none, none, none, none⟩
  else
    pure ⟨id, .raw ty, 1, none, none, none, none, none⟩

/-- One registry entry: the per-sensor attribute dictionary built by
`createSensorList`, including the frame offset `pos`. -/
structure Descriptor where
  stype : SType
  pos : ℕ
  name : Option FieldVal
  capacity : Option ℚ
  fluidTy : Option String
  fluidKind : Option String
  capacityNominal : Option ℚ
deriving DecidableEq, Repr

/-- Attach the running offset to an interpreted slot. -/
def mkDescriptor (si : SlotInterp) (pos : ℕ) : Descriptor :=
  ⟨si.stype, pos, si.name, si.capacity, si.fluidTy, si.fluidKind, si.capacityNominal⟩

/-- The `createSensorList` loop: `elementPos` is the running offset, `acc`
the registry built so far (keyed by sensor id, last write wins). -/
def createSensorListAux :
    List (List (ℕ × FieldVal)) → ℕ → List (ℕ × Descriptor) →
      Option (List (ℕ × Descriptor))
  | [], _, acc => some acc
  | slot :: rest, elementPos, acc =>
    match interpretSlot slot with
    | none => none
    | some si =>
      createSensorListAux rest (elementPos + si.size)
        (dictInsert acc si.id (mkDescriptor si elementPos))

/-- `createSensorList(config)` from `pico.py`.  The config is the list of
decoded per-slot field dictionaries in slot order (Python iterates
`config.keys()` in insertion order `0, 1, …`). -/
def createSensorList (config : List (List (ℕ × FieldVal))) :
    Option (List (ℕ × Descriptor)) :=
  createSensorListAux config 0 []

/-! ### Telemetry interpreter (`readBatt`, `readCurrent`) -/

/-- The values `readBatt` adds to the battery sensor's reading.
`timeRemaining = none` means the `capacity.timeRemaining` key is not set. -/
structure BatteryReading where
  stateOfCharge : ℚ
  capacityRemaining : ℚ
  voltage : ℚ
  current : ℚ
  timeRemaining : Option ℤ
deriving DecidableEq, Repr

/-- `readBatt(sensorId, elementId)` from `pico.py`.  `element` is the decoded
telemetry frame (`parseResponse` output), `elementId` the sensor's registry
offset, and `capacityNominal` the registry's `capacity.nominal` value for the
sensor (always present for a battery descriptor).  Line 296 of the source
recomputes `stateOfCharge` with the identical expression, so the single
binding below is reused. -/
def readBatt (element : List (ℕ × FieldVal)) (capacityNominal : ℚ)
    (elementId : ℕ) : Option BatteryReading := do
  let e0 ← dictGet element elementId
  let raw0 ← e0.fst?
  let stateOfCharge := round2 ((raw0 : ℚ) / 16000)
  let rem ← e0.snd?
  let v ← (← dictGet element (elementId + 2)).snd?
  let rawc ← (← dictGet element (elementId + 1)).snd?
  let current : ℚ :=
    if 25000 < rawc then ((65535 : ℚ) - rawc) / 100 else (rawc : ℚ) / 100 * (-1)
  let timeRemaining : Option ℤ :=
    if raw0 ≠ 65535 then
      some (let t := round (capacityNominal / 12 / (current * stateOfCharge + 1 / 1000))
            if t < 0 then 60 * 60 * 24 * 7 else t)
    else none
  pure ⟨stateOfCharge, (rem : ℚ) * stateOfCharge, (v : ℚ) / 1000, current,
    timeRemaining⟩

/-- `readCurrent(sensorId, elementId)` from `pico.py`: the signed current the
reader stores, from the second raw component of the frame field at the
sensor's registry offset. -/
def readCurrent (element : List (ℕ × FieldVal)) (elementId : ℕ) : Option ℚ := do
  let rawc ← (← dictGet element elementId).snd?
  pure (if 25000 < rawc then ((65535 : ℚ) - rawc) / 100 else (rawc : ℚ) / 100 * (-1))

/-! ### Dictionary lemmas -/

theorem dictGet_dictInsert_self {α : Type} (acc : List (ℕ × α)) (n : ℕ) (v : α) :
    dictGet (dictInsert acc n v) n = some v := by
  induction acc with
  | nil => simp [dictInsert, dictGet]
  | cons p rest ih =>
    obtain ⟨k, w⟩ := p
    by_cases hk : k = n
    · simp [dictInsert, dictGet, hk]
    · simp [dictInsert, dictGet, hk, ih]

theorem dictGet_dictInsert_ne {α : Type} (acc : List (ℕ × α)) (n m : ℕ) (v : α)
    (h : m ≠ n) : dictGet (dictInsert acc n v) m = dictGet acc m := by
  induction acc with
  | nil =>
    simp only [dictInsert, dictGet]
    rw [if_neg (fun hh => h hh.symm)]
  | cons p rest ih =>
    obtain ⟨k, w⟩ := p
    by_cases hk : k = n
    · subst hk
      have hkm : ¬ k = m := fun hh => h hh.symm
      simp [dictInsert, dictGet, hkm]
    · simp only [dictInsert, if_neg hk, dictGet]
      by_cases hm : k = m
      · simp [hm]
      · simp [hm, ih]

/-! ### Specification-side definitions

These definitions transcribe formulas from the specification text (not from
the code); theorems below compare them with the embedded code. -/

/-- The signed-current formula as the specification states it:
`(65535 − raw)/100` when `raw > 25000`, else `−(raw/100)`. -/
def specSignedCurrent (raw : ℕ) : ℚ :=
  if 25000 < raw then ((65535 : ℚ) - raw) / 100 else -((raw : ℚ) / 100)

/-- The per-type element-count table exactly as claim C4 states it:
0 for null type 0, 2 for current, 2 for barometer, 5 for battery,
1 otherwise. -/
def claimC4Count (tyCode : ℕ) : ℕ :=
  if tyCode = 0 then 0
  else if tyCode = 2 then 2
  else if tyCode = 5 then 2
  else if tyCode = 9 then 5
  else 1

/-- The element-count table amended with the code's `PICO INTERNAL` volt
exception: a volt-type slot (code 1) whose name field is exactly the string
`"PICO INTERNAL"` occupies 6 elements. -/
def amendedCount (tyCode : ℕ) (name : Option FieldVal) : ℕ :=
  if tyCode = 0 then 0
  else if tyCode = 1 then (if name = some (.str picoInternal) then 6 else 1)
  else if tyCode = 2 then 2
  else if tyCode = 5 then 2
  else if tyCode = 9 then 5
  else 1

/-! ### Concrete inputs used in counterexamples and witnesses -/

/-- A decoded telemetry frame for a battery at offset 0: first raw component
8000 (state of charge 0.5), second 100; current raw 1000; voltage raw
12000. -/
def battElement : List (ℕ × FieldVal) :=
  [(0, .pair 8000 100), (1, .pair 0 1000), (2, .pair 0 12000)]

/-- A config slot: volt sensor (type 1), id 7, named `"PICO INTERNAL"`. -/
def voltPicoSlot : List (ℕ × FieldVal) :=
  [(0, .pair 0 7), (1, .pair 0 1), (3, .str picoInternal)]

/-- A config slot: thermometer (type 3), id 8, one-byte name. -/
def thermoSlot : List (ℕ × FieldVal) :=
  [(0, .pair 0 8), (1, .pair 0 3), (3, .str [69])]

/-- A two-slot config: the `PICO INTERNAL` volt sensor, then a thermometer. -/
def c4Config : List (List (ℕ × FieldVal)) := [voltPicoSlot, thermoSlot]

/-- A 101-byte telemetry datagram (within the accepted 100–1200 byte window)
whose first field after the 14-byte header carries the unrecognised type code
`0x02`. -/
def unknownTypeMessage : List ℕ :=
  List.replicate 14 0 ++ [5, 2] ++ List.replicate 85 0

/-- The count-request template built in `get_pico_config` before the CRC is
appended. -/
def countReq : List ℕ :=
  [0x00, 0x00, 0x00, 0x00, 0x00, 0xFF, 0x02, 0x04, 0x8C, 0x55, 0x4B, 0x00, 0x03, 0xFF]

/-! ### Claim theorems -/

/-- **C5** (confirmed).  For every raw 16-bit thermometer value, the
temperature conversion reinterprets the raw value as signed 16-bit by
subtracting 65536 when it exceeds 32768, then returns
`round(raw/10 + 273.15, 2)`; raw 0 yields 273.15 K and raw 65535 yields
273.05 K. -/
theorem c5_toTemperature (temp : ℕ) (h : temp ≤ 65535) :
    toTemperature temp
      = round2 ((if 32768 < temp then (temp : ℚ) - 65536 else (temp : ℚ)) / 10
          + 27315 / 100)
    ∧ toTemperature 0 = 27315 / 100
    ∧ toTemperature 65535 = 27305 / 100 := by
  refine ⟨?_, ?_, ?_⟩
  · unfold toTemperature
    split_ifs with h1 <;> norm_num
  · norm_num [toTemperature, round2, round_eq]
  · norm_num [toTemperature, round2, round_eq]

/-- Witness for `c5_toTemperature`, applied at raw value 50 (the end-to-end
example of the specification: 50 → 278.15 K). -/
theorem c5_toTemperature_witness :
    toTemperature 50
      = round2 ((if 32768 < (50 : ℕ) then ((50 : ℕ) : ℚ) - 65536 else ((50 : ℕ) : ℚ)) / 10
          + 27315 / 100)
    ∧ toTemperature 0 = 27315 / 100
    ∧ toTemperature 65535 = 27305 / 100 :=
  c5_toTemperature 50 (by norm_num)

/-- Forward evaluation of `readBatt` when the three frame fields the reader
touches are present and are integer pairs. -/
theorem readBatt_eval (element : List (ℕ × FieldVal)) (cn : ℚ)
    (eid a b w2 v w1 rawc : ℕ)
    (h0 : dictGet element eid = some (.pair a b))
    (h2 : dictGet element (eid + 2) = some (.pair w2 v))
    (h1 : dictGet element (eid + 1) = some (.pair w1 rawc)) :
    readBatt element cn eid = some
      ⟨round2 ((a : ℚ) / 16000),
       (b : ℚ) * round2 ((a : ℚ) / 16000),
       (v : ℚ) / 1000,
       if 25000 < rawc then ((65535 : ℚ) - rawc) / 100 else (rawc : ℚ) / 100 * (-1),
       if a ≠ 65535 then
         some (let t := round (cn / 12 /
            ((if 25000 < rawc then ((65535 : ℚ) - rawc) / 100
              else (rawc : ℚ) / 100 * (-1)) * round2 ((a : ℚ) / 16000) + 1 / 1000))
           if t < 0 then 60 * 60 * 24 * 7 else t)
       else none⟩ := by
  simp [readBatt, h0, h2, h1, FieldVal.fst?, FieldVal.snd?]

/-- **C1** (counterexample).  The code sets `capacity.remaining` from the
frame field's *second raw component* (`element[elementId][1]`), not from the
registry's nominal capacity: with nominal capacity 7777 and frame field
`(8000, 100)`, stateOfCharge is 0.5 and the code stores `100 × 0.5 = 50`,
while the claim demands `7777 × 0.5 = 3888.5`. -/
theorem c1_counterexample :
    readBatt battElement 7777 0 = some ⟨1/2, 50, 12, -10, some 604800⟩
    ∧ ((50 : ℚ) ≠ 7777 * (1/2)) := by
  constructor
  · simp only [readBatt, battElement, dictGet, FieldVal.fst?, FieldVal.snd?]
    norm_num [round2, round_eq]
  · norm_num

/-- **C1** (amended, proved).  For every battery reading the interpreter
produces, `stateOfCharge = round(element[pos][0]/16000, 2)` and
`capacity.remaining = element[pos][1] × stateOfCharge` — the second raw
component of the field at the registry offset, not the registry nominal
capacity. -/
theorem c1_amended (element : List (ℕ × FieldVal)) (capacityNominal : ℚ)
    (elementId a b w2 v w1 rawc : ℕ) (r : BatteryReading)
    (h0 : dictGet element elementId = some (.pair a b))
    (h2 : dictGet element (elementId + 2) = some (.pair w2 v))
    (h1 : dictGet element (elementId + 1) = some (.pair w1 rawc))
    (hr : readBatt element capacityNominal elementId = some r) :
    r.stateOfCharge = round2 ((a : ℚ) / 16000)
    ∧ r.capacityRemaining = (b : ℚ) * r.stateOfCharge := by
  rw [readBatt_eval element capacityNominal elementId a b w2 v w1 rawc h0 h2 h1]
    at hr
  obtain rfl := Option.some.inj hr
  exact ⟨rfl, rfl⟩

/-- Witness for `c1_amended`, applied to `battElement` with nominal
capacity 7777. -/
theorem c1_amended_witness :
    (⟨1/2, 50, 12, -10, some 604800⟩ : BatteryReading).stateOfCharge
        = round2 ((8000 : ℚ) / 16000)
    ∧ (⟨1/2, 50, 12, -10, some 604800⟩ : BatteryReading).capacityRemaining
        = (100 : ℚ) * (⟨1/2, 50, 12, -10, some 604800⟩ : BatteryReading).stateOfCharge :=
  c1_amended battElement 7777 0 8000 100 0 12000 0 1000 _ rfl rfl rfl
    (by simp only [readBatt, battElement, dictGet, FieldVal.fst?, FieldVal.snd?]
        norm_num [round2, round_eq])

/-- **C6** (confirmed).  Both the current-type reader and the battery reader
compute the signed current from the raw value as `(65535 − raw)/100` when
`raw > 25000` and `−(raw/100)` otherwise; raw 30000 yields 355.35 and raw
1000 yields −10.0. -/
theorem c6_signedCurrent :
    (∀ element elementId a raw,
        dictGet element elementId = some (.pair a raw) →
        readCurrent element elementId = some (specSignedCurrent raw))
    ∧ (∀ element capacityNominal elementId a b w2 v w1 raw r,
        dictGet element elementId = some (.pair a b) →
        dictGet element (elementId + 2) = some (.pair w2 v) →
        dictGet element (elementId + 1) = some (.pair w1 raw) →
        readBatt element capacityNominal elementId = some r →
        r.current = specSignedCurrent raw)
    ∧ specSignedCurrent 30000 = 35535 / 100
    ∧ specSignedCurrent 1000 = -10 := by
  refine ⟨?_, ?_, by norm_num [specSignedCurrent], by norm_num [specSignedCurrent]⟩
  · intro element elementId a raw hget
    simp [readCurrent, hget, FieldVal.snd?, specSignedCurrent]
  · intro element capacityNominal elementId a b w2 v w1 raw r h0 h2 h1 hr
    rw [readBatt_eval element capacityNominal elementId a b w2 v w1 raw h0 h2 h1]
      at hr
    obtain rfl := Option.some.inj hr
    simp only [specSignedCurrent]
    split_ifs <;> ring

/-- Witness for `c6_signedCurrent`: both readers applied to `battElement`
(current raw value 1000). -/
theorem c6_signedCurrent_witness :
    readCurrent battElement 1 = some (specSignedCurrent 1000)
    ∧ (⟨1/2, 50, 12, -10, some 604800⟩ : BatteryReading).current
        = specSignedCurrent 1000 := by
  have h := c6_signedCurrent
  refine ⟨h.1 battElement 1 0 1000 rfl,
    h.2.1 battElement 7777 0 8000 100 0 12000 0 1000 _ rfl rfl rfl ?_⟩
  simp only [readBatt, battElement, dictGet, FieldVal.fst?, FieldVal.snd?]
  norm_num [round2, round_eq]

/-- **C7** (confirmed).  For every battery reading, `capacity.timeRemaining`
equals `round(nominalCapacity/12/(current × stateOfCharge + 0.001))`, is
omitted when the first raw element equals 65535, and is clamped to 604800
when the estimate is negative. -/
theorem c7_timeRemaining (element : List (ℕ × FieldVal)) (capacityNominal : ℚ)
    (elementId a b w2 v w1 rawc : ℕ) (r : BatteryReading)
    (h0 : dictGet element elementId = some (.pair a b))
    (h2 : dictGet element (elementId + 2) = some (.pair w2 v))
    (h1 : dictGet element (elementId + 1) = some (.pair w1 rawc))
    (hr : readBatt element capacityNominal elementId = some r) :
    (a = 65535 → r.timeRemaining = none)
    ∧ (a ≠ 65535 →
        r.timeRemaining = some
          (if round (capacityNominal / 12 / (r.current * r.stateOfCharge + 1 / 1000)) < 0
           then 604800
           else round (capacityNominal / 12 / (r.current * r.stateOfCharge + 1 / 1000)))) := by
  rw [readBatt_eval element capacityNominal elementId a b w2 v w1 rawc h0 h2 h1]
    at hr
  obtain rfl := Option.some.inj hr
  constructor
  · intro ha
    simp [ha]
  · intro ha
    simp only [if_pos ha]
    norm_num

/-- Witness for `c7_timeRemaining`, applied to `battElement` with nominal
capacity 7777 (estimate is negative, so it clamps to 604800). -/
theorem c7_timeRemaining_witness :
    ((8000 : ℕ) = 65535 →
      (⟨1/2, 50, 12, -10, some 604800⟩ : BatteryReading).timeRemaining = none)
    ∧ ((8000 : ℕ) ≠ 65535 →
      (⟨1/2, 50, 12, -10, some 604800⟩ : BatteryReading).timeRemaining = some
        (if round ((7777 : ℚ) / 12 / ((-10) * (1/2) + 1 / 1000)) < 0
         then 604800
         else round ((7777 : ℚ) / 12 / ((-10) * (1/2) + 1 / 1000)))) :=
  c7_timeRemaining battElement 7777 0 8000 100 0 12000 0 1000 _ rfl rfl rfl
    (by simp only [readBatt, battElement, dictGet, FieldVal.fst?, FieldVal.snd?]
        norm_num [round2, round_eq])

/-- **C2** (code bug).  On a frame carrying an unrecognised field type the
decoder produces no reading set at all (`parseResponse = none`, modelling the
raised exception), so no partial set is emitted — that half of the claim
holds.  But the Python exception behind that `none` (`getNextField` returns
`None` and the tuple unpacking in `parseResponse` raises `TypeError`) is
uncaught in the telemetry loop at line 335 of the source, so the process
terminates: the cycle is *not* skipped and the loop does *not* continue, as
the claim and §7 of the specification require. -/
theorem c2_unknownFieldType :
    parseResponse unknownTypeMessage = none
    ∧ 100 < unknownTypeMessage.length
    ∧ unknownTypeMessage.length < 1200
    ∧ getNextField (unknownTypeMessage.drop 14) = none := by
  refine ⟨?_, by decide, by decide, by decide⟩
  unfold parseResponse
  exact parseLoop_none _ _ (by decide) (by decide)

/-- Python `data[1:-1]` is the list without its first and last elements. -/
theorem pySlice_default (data : List ℕ) :
    pySlice data 1 (-1) = (data.drop 1).dropLast := by
  cases data with
  | nil => rfl
  | cons a l =>
    unfold pySlice pySliceIdx
    have h1 : (max 0 (min ((a :: l).length : ℤ)
        (if (-1 : ℤ) < 0 then -1 + (a :: l).length else -1))).toNat = l.length := by
      simp only [List.length_cons]
      split_ifs <;> omega
    have h2 : (max 0 (min ((a :: l).length : ℤ)
        (if (1 : ℤ) < 0 then 1 + (a :: l).length else 1))).toNat = 1 := by
      simp only [List.length_cons]
      split_ifs <;> omega
    rw [h1, h2, List.drop_take, List.dropLast_eq_take]
    rfl

set_option maxRecDepth 8000 in
/-- **C8** (counterexample).  With its default arguments the CRC is computed
over `data[1:-1]`, which *excludes the final byte* of the buffer, not over
all bytes from offset 1 on: on the count-request template the two slices
give different checksums, so the appended bytes differ from what the claim
states.  (Over `data[1:-1]` the same CRC engine reproduces the device's own
checksum — see `crc16_matches_device` — so excluding the final byte is the
device's convention, not an accident of the model.) -/
theorem c8_counterexample :
    add_crc_default countReq
      ≠ countReq ++ [crc16 (countReq.drop 1) / 256, crc16 (countReq.drop 1) % 256] := by
  decide

/-- **C8** (amended, proved).  With the default arguments (offset 1, length
−1) the CRC-append operation computes the CRC-16 (generator polynomial
0x11189, initial value 0, not reversed, no output XOR) of `buffer[1:-1]` —
the bytes from index 1 up to but excluding the final byte — and appends
exactly two big-endian bytes holding that checksum, leaving the preceding
bytes unchanged. -/
theorem c8_amended (data : List ℕ) :
    add_crc_default data
      = data ++ [crc16 ((data.drop 1).dropLast) / 256,
                 crc16 ((data.drop 1).dropLast) % 256]
    ∧ (add_crc_default data).take data.length = data := by
  have h : add_crc_default data
      = data ++ [crc16 ((data.drop 1).dropLast) / 256,
                 crc16 ((data.drop 1).dropLast) % 256] := by
    unfold add_crc_default add_crc
    rw [pySlice_default]
  exact ⟨h, by rw [h, List.take_left]⟩

set_option maxRecDepth 8000 in
/-- The response quoted in the source (line 131) ends with the device's own
checksum bytes `32 cf`; the embedded CRC over the `[1:-1]` slice of its body
reproduces exactly that value, validating the CRC model and the slice
convention against the real device. -/
theorem crc16_matches_device :
    crc16 (pySlice
      [0x00, 0x00, 0x00, 0x00, 0x00, 0xff, 0x02, 0x04, 0x8c, 0x55, 0x4b, 0x00,
       0x11, 0xff, 0x01, 0x01, 0x00, 0x00, 0x00, 0x1e, 0xff, 0x02, 0x01, 0x00,
       0x00, 0x00, 0x30, 0xff] 1 (-1)) = 0x32cf := by
  decide

/-- Evaluation of the `createSensorList` loop on a slot interpreted as a
`PICO INTERNAL` volt sensor. -/
theorem interpretSlot_volt (slot : List (ℕ × FieldVal)) (v0 v1 : FieldVal)
    (id : ℕ) (name : FieldVal)
    (h0 : dictGet slot 0 = some v0) (hid : v0.snd? = some id)
    (h1 : dictGet slot 1 = some v1) (hty : v1.snd? = some 1)
    (h3 : dictGet slot 3 = some name) :
    interpretSlot slot = some
      ⟨id, .volt, if name = .str picoInternal then 6 else 1,
       some name, none, none, none, none⟩ := by
  simp [interpretSlot, h0, hid, h1, hty, h3]

/-- **C9** (confirmed).  A volt-type slot (code 1) whose name field equals
exactly `"PICO INTERNAL"` is assigned element count 6 instead of the default
1, so the running offset passed to every subsequent slot advances by 6 for
that sensor. -/
theorem c9_picoInternal (slot : List (ℕ × FieldVal)) (si : SlotInterp)
    (v0 v1 : FieldVal) (id : ℕ)
    (h0 : dictGet slot 0 = some v0) (hid : v0.snd? = some id)
    (h1 : dictGet slot 1 = some v1) (hty : v1.snd? = some 1)
    (hname : dictGet slot 3 = some (.str picoInternal))
    (h : interpretSlot slot = some si) :
    si.size = 6
    ∧ ∀ rest p acc,
        createSensorListAux (slot :: rest) p acc
          = createSensorListAux rest (p + 6)
              (dictInsert acc si.id (mkDescriptor si p)) := by
  rw [interpretSlot_volt slot v0 v1 id (.str picoInternal) h0 hid h1 hty hname]
    at h
  obtain rfl := Option.some.inj h
  simp only [if_pos rfl]
  refine ⟨rfl, ?_⟩
  intro rest p acc
  simp [createSensorListAux,
    interpretSlot_volt slot v0 v1 id (.str picoInternal) h0 hid h1 hty hname]

/-- Witness for `c9_picoInternal`, applied to the concrete slot
`voltPicoSlot` (with the loop continuation instantiated at `[]`, 0, `[]`). -/
theorem c9_picoInternal_witness :
    (⟨7, .volt, 6, some (.str picoInternal), none, none, none, none⟩
        : SlotInterp).size = 6
    ∧ createSensorListAux [voltPicoSlot] 0 []
        = createSensorListAux [] (0 + 6)
            (dictInsert [] 7 (mkDescriptor
              ⟨7, .volt, 6, some (.str picoInternal), none, none, none, none⟩ 0)) := by
  have h := c9_picoInternal voltPicoSlot
    ⟨7, .volt, 6, some (.str picoInternal), none, none, none, none⟩
    (.pair 0 7) (.pair 0 1) 7 rfl rfl rfl rfl rfl (by decide)
  exact ⟨h.1, h.2 [] 0 []⟩

/-- **C10** (confirmed).  Every successfully decoded field consumes at least
7 bytes, and when the field type at offset 1 is one of the recognised codes
(0x01, 0x03, 0x04) a field is always decoded; hence each iteration of the
`parseResponse` loop strictly shortens the remaining byte sequence by at
least 7 bytes and the while-condition (more than 6 bytes remain) eventually
fails. -/
theorem c10_termination :
    (∀ response n v rest, 6 < response.length →
        getNextField response = some (n, v, rest) →
        rest.length + 7 ≤ response.length)
    ∧ (∀ response, 6 < response.length →
        (response[1]? = some 1 ∨ response[1]? = some 3 ∨ response[1]? = some 4) →
        ∃ n v rest, getNextField response = some (n, v, rest)
          ∧ rest.length + 7 ≤ response.length) := by
  have hshrink : ∀ response n v rest, 6 < response.length →
      getNextField response = some (n, v, rest) →
      rest.length + 7 ≤ response.length := by
    intro response n v rest h hg
    have := getNextField_shrinks response n v rest hg
    omega
  refine ⟨hshrink, ?_⟩
  intro response h ht
  cases response with
  | nil => simp at h
  | cons a t =>
    cases t with
    | nil => simp at h
    | cons b tail =>
      simp only [List.getElem?_cons_succ, List.getElem?_cons_zero,
        Option.some.injEq] at ht
      have hex : (getNextField (a :: b :: tail)).isSome := by
        rcases ht with rfl | rfl | rfl
        · simp [getNextField]
        · simp only [getNextField]
          norm_num
          split <;> simp
        · simp only [getNextField]
          norm_num
          split <;> simp
      obtain ⟨x, hx⟩ := Option.isSome_iff_exists.mp hex
      obtain ⟨n, v, rest⟩ := x
      exact ⟨n, v, rest, hx, hshrink _ n v rest h hx⟩

/-- Witness for `c10_termination`: both conjuncts applied to the 7-byte
type-0x01 field `[9, 1, 0, 10, 0, 20, 0]`. -/
theorem c10_termination_witness :
    ([] : List ℕ).length + 7 ≤ ([9, 1, 0, 10, 0, 20, 0] : List ℕ).length
    ∧ (getNextField [9, 1, 0, 10, 0, 20, 0]).isSome = true := by
  constructor
  · exact c10_termination.1 [9, 1, 0, 10, 0, 20, 0] 9 (.pair 10 20) []
      (by decide) (by decide)
  · obtain ⟨n, v, rest, hg, -⟩ :=
      c10_termination.2 [9, 1, 0, 10, 0, 20, 0] (by decide) (by decide)
    rw [hg]
    rfl

/-! ### Registry offset machinery for C4 -/

/-- Interpret every slot of a config in order (`none` if any slot fails). -/
def interpretAll : List (List (ℕ × FieldVal)) → Option (List SlotInterp)
  | [] => some []
  | s :: rest =>
    match interpretSlot s with
    | none => none
    | some si => (interpretAll rest).map (si :: ·)

/-- Fold interpreted slots with a running offset, exactly as the
`createSensorList` loop does. -/
def buildReg : List SlotInterp → ℕ → List (ℕ × Descriptor) → List (ℕ × Descriptor)
  | [], _, acc => acc
  | si :: rest, p, acc =>
    buildReg rest (p + si.size) (dictInsert acc si.id (mkDescriptor si p))

theorem createSensorListAux_eq (config : List (List (ℕ × FieldVal)))
    (sis : List SlotInterp) (h : interpretAll config = some sis)
    (p : ℕ) (acc : List (ℕ × Descriptor)) :
    createSensorListAux config p acc = some (buildReg sis p acc) := by
  induction config generalizing sis p acc with
  | nil =>
    simp only [interpretAll, Option.some.injEq] at h
    subst h
    rfl
  | cons s rest ih =>
    simp only [interpretAll] at h
    cases hs : interpretSlot s with
    | none => rw [hs] at h; cases h
    | some si =>
      rw [hs] at h
      cases hr : interpretAll rest with
      | none => rw [hr] at h; cases h
      | some sis' =>
        rw [hr] at h
        simp only [Option.map_some', Option.some.injEq] at h
        subst h
        simp only [createSensorListAux, hs]
        rw [ih sis' hr]
        rfl

theorem dictGet_buildReg_notmem (sis : List SlotInterp) (p : ℕ)
    (acc : List (ℕ × Descriptor)) (k : ℕ)
    (h : k ∉ sis.map SlotInterp.id) :
    dictGet (buildReg sis p acc) k = dictGet acc k := by
  induction sis generalizing p acc with
  | nil => rfl
  | cons si rest ih =>
    simp only [List.map_cons, List.mem_cons] at h
    push_neg at h
    simp only [buildReg]
    rw [ih _ _ h.2, dictGet_dictInsert_ne _ _ _ _ h.1]

/-- In the registry built from slots with pairwise distinct ids, the entry
for the `i`-th slot carries as `pos` the base offset plus the summed sizes of
the preceding slots. -/
theorem buildReg_get (sis : List SlotInterp) (hid : (sis.map SlotInterp.id).Nodup)
    (p : ℕ) (acc : List (ℕ × Descriptor)) (i : ℕ) (hi : i < sis.length) :
    dictGet (buildReg sis p acc) ((sis.get ⟨i, hi⟩).id)
      = some (mkDescriptor (sis.get ⟨i, hi⟩)
          (p + ((sis.take i).map SlotInterp.size).sum)) := by
  induction sis generalizing p acc i with
  | nil => exact absurd hi (by simp)
  | cons si rest ih =>
    simp only [List.map_cons, List.nodup_cons] at hid
    cases i with
    | zero =>
      simp only [buildReg, List.get, List.take_zero, List.map_nil,
        List.sum_nil, Nat.add_zero]
      rw [dictGet_buildReg_notmem rest _ _ _ hid.1, dictGet_dictInsert_self]
    | succ j =>
      simp only [buildReg]
      have hj : j < rest.length := by simpa using hi
      have hrec := ih hid.2 (p + si.size)
        (dictInsert acc si.id (mkDescriptor si p)) j hj
      simpa [List.sum_cons, Nat.add_assoc] using hrec

theorem foldr_max_le (l : List ℕ) (t : ℕ) (h : ∀ x ∈ l, x ≤ t) :
    l.foldr max 0 ≤ t := by
  induction l with
  | nil => simp
  | cons a l ih =>
    simp only [List.foldr_cons]
    exact max_le (h a (by simp)) (ih fun x hx => h x (by simp [hx]))

theorem le_foldr_max (l : List ℕ) (t : ℕ) (hmem : t ∈ l) : t ≤ l.foldr max 0 := by
  induction l with
  | nil => cases hmem
  | cons a l ih =>
    simp only [List.foldr_cons]
    rcases List.mem_cons.mp hmem with rfl | hm
    · exact le_max_left _ _
    · exact le_trans (ih hm) (le_max_right _ _)

/-- For a slot with a recognised type code, the element size chosen by the
registry builder is given by the claim's table amended with the
`PICO INTERNAL` volt exception. -/
theorem interpretSlot_size (slot : List (ℕ × FieldVal)) (si : SlotInterp) (ty : ℕ)
    (h : interpretSlot slot = some si)
    (hty : (dictGet slot 1).bind FieldVal.snd? = some ty)
    (hrec : ty ∈ ([0, 1, 2, 3, 5, 6, 8, 9, 14] : List ℕ)) :
    si.size = amendedCount ty (dictGet slot 3) := by
  obtain ⟨v1, hv1, hs1⟩ := Option.bind_eq_some'.mp hty
  cases hd0 : dictGet slot 0 with
  | none => simp [interpretSlot, hd0] at h
  | some v0 =>
    cases hsnd0 : v0.snd? with
    | none => simp [interpretSlot, hd0, hsnd0] at h
    | some id =>
      simp only [interpretSlot, Option.bind_eq_bind, Option.some_bind,
        Option.pure_def, hd0, hsnd0, hv1, hs1] at h
      simp only [List.mem_cons, List.not_mem_nil, or_false] at hrec
      rcases hrec with rfl | rfl | rfl | rfl | rfl | rfl | rfl | rfl | rfl
      · simp only [if_pos rfl] at h
        obtain rfl := Option.some.inj h
        rfl
      · norm_num at h
        obtain ⟨name, h3, h⟩ := Option.bind_eq_some'.mp h
        obtain rfl := Option.some.inj h
        by_cases hn : name = .str picoInternal <;>
          simp [amendedCount, h3, hn]
      · norm_num at h
        obtain ⟨name, h3, h⟩ := Option.bind_eq_some'.mp h
        obtain rfl := Option.some.inj h
        rfl
      · norm_num at h
        obtain ⟨name, h3, h⟩ := Option.bind_eq_some'.mp h
        obtain rfl := Option.some.inj h
        rfl
      · norm_num at h
        obtain ⟨name, h3, h⟩ := Option.bind_eq_some'.mp h
        obtain rfl := Option.some.inj h
        rfl
      · norm_num at h
        obtain ⟨name, h3, h⟩ := Option.bind_eq_some'.mp h
        obtain rfl := Option.some.inj h
        rfl
      · norm_num at h
        obtain ⟨name, h3, h⟩ := Option.bind_eq_some'.mp h
        obtain ⟨v7, h7, h⟩ := Option.bind_eq_some'.mp h
        obtain ⟨cap, hcap, h⟩ := Option.bind_eq_some'.mp h
        obtain ⟨v6, h6, h⟩ := Option.bind_eq_some'.mp h
        obtain ⟨fl, hfl, h⟩ := Option.bind_eq_some'.mp h
        obtain ⟨ft, hft, h⟩ := Option.bind_eq_some'.mp h
        obtain ⟨f, hf, h⟩ := Option.bind_eq_some'.mp h
        obtain rfl := Option.some.inj h
        rfl
      · norm_num at h
        obtain ⟨name, h3, h⟩ := Option.bind_eq_some'.mp h
        obtain ⟨v5, h5, h⟩ := Option.bind_eq_some'.mp h
        obtain ⟨cap, hcap, h⟩ := Option.bind_eq_some'.mp h
        obtain rfl := Option.some.inj h
        rfl
      · rw [if_neg (by decide : ¬ (14 : ℕ) = 0), if_neg (by decide : ¬ (14 : ℕ) = 1),
          if_neg (by decide : ¬ (14 : ℕ) = 2), if_neg (by decide : ¬ (14 : ℕ) = 3),
          if_neg (by decide : ¬ (14 : ℕ) = 5), if_neg (by decide : ¬ (14 : ℕ) = 6),
          if_neg (by decide : ¬ (14 : ℕ) = 8), if_neg (by decide : ¬ (14 : ℕ) = 9),
          if_pos rfl] at h
        obtain rfl := Option.some.inj h
        rfl

/-- **C4** (counterexample).  On a config whose first slot is a volt sensor
(recognised type code 1) named `"PICO INTERNAL"`, the code assigns the second
slot `pos = 6`, whereas the claim's element-count table ("1 otherwise")
demands a running offset of 1. -/
theorem c4_counterexample :
    createSensorList c4Config
      = some [(7, ⟨.volt, 0, some (.str picoInternal), none, none, none, none⟩),
              (8, ⟨.thermometer, 6, some (.str [69]), none, none, none, none⟩)]
    ∧ claimC4Count 1 = 1
    ∧ (6 : ℕ) ≠ 1 :=
  ⟨by decide, by decide, by decide⟩

/-- **C4** (amended, proved).  For every config whose slots all carry
recognised type codes, the registry builder assigns each sensor the running
offset accumulated over prior slots in iteration order as its `pos`, then
advances that offset by the sensor's element count — 0 for null type 0, 2
for current, 2 for barometer, 5 for battery, *6 for a volt sensor named
exactly `"PICO INTERNAL"`*, 1 otherwise (`amendedCount`) — so that the
summed element counts equal the maximum of `pos + count` with no gaps or
overlaps.  The per-slot offsets are read back from the registry under the
specification's assumption that device-assigned ids are unique. -/
theorem c4_amended :
    (∀ slot si ty, interpretSlot slot = some si →
        (dictGet slot 1).bind FieldVal.snd? = some ty →
        ty ∈ ([0, 1, 2, 3, 5, 6, 8, 9, 14] : List ℕ) →
        si.size = amendedCount ty (dictGet slot 3))
    ∧ (∀ config sis, interpretAll config = some sis →
        createSensorList config = some (buildReg sis 0 [])
        ∧ ((sis.map SlotInterp.id).Nodup →
            ∀ i (hi : i < sis.length),
              dictGet (buildReg sis 0 []) ((sis.get ⟨i, hi⟩).id)
                = some (mkDescriptor (sis.get ⟨i, hi⟩)
                    (((sis.take i).map SlotInterp.size).sum))))
    ∧ (∀ sizes : List ℕ,
        ((List.range sizes.length).map
            (fun i => (sizes.take i).sum + sizes.getD i 0)).foldr max 0
          = sizes.sum) := by
  refine ⟨interpretSlot_size, ?_, ?_⟩
  · intro config sis h
    refine ⟨createSensorListAux_eq config sis h 0 [], ?_⟩
    intro hid i hi
    have hb := buildReg_get sis hid 0 [] i hi
    simpa using hb
  · intro sizes
    rcases Nat.eq_zero_or_pos sizes.length with hz | hpos
    · have hnil : sizes = [] := List.length_eq_zero.mp hz
      subst hnil
      simp
    · apply le_antisymm
      · apply foldr_max_le
        intro x hx
        obtain ⟨i, hi, rfl⟩ := List.mem_map.mp hx
        have hilt : i < sizes.length := List.mem_range.mp hi
        rw [List.getD_eq_getElem sizes 0 hilt, ← List.sum_take_succ sizes i hilt]
        calc (sizes.take (i + 1)).sum
            ≤ (sizes.take (i + 1)).sum + (sizes.drop (i + 1)).sum :=
              Nat.le_add_right _ _
          _ = sizes.sum := List.sum_take_add_sum_drop _ _
      · apply le_foldr_max
        refine List.mem_map.mpr ⟨sizes.length - 1, List.mem_range.mpr (by omega), ?_⟩
        have hn : sizes.length - 1 < sizes.length := by omega
        rw [List.getD_eq_getElem sizes 0 hn, ← List.sum_take_succ sizes _ hn]
        rw [show sizes.length - 1 + 1 = sizes.length from by omega, List.take_length]

/-- Witness for `c4_amended`: all three conjuncts applied to the concrete
two-slot config `c4Config` (sizes 6 and 1; second sensor at offset 6). -/
theorem c4_amended_witness :
    (⟨7, .volt, 6, some (.str picoInternal), none, none, none, none⟩
        : SlotInterp).size = amendedCount 1 (dictGet voltPicoSlot 3)
    ∧ createSensorList c4Config
        = some (buildReg
            [⟨7, .volt, 6, some (.str picoInternal), none, none, none, none⟩,
             ⟨8, .thermometer, 1, some (.str [69]), none, none, none, none⟩] 0 [])
    ∧ dictGet (buildReg
            [⟨7, .volt, 6, some (.str picoInternal), none, none, none, none⟩,
             ⟨8, .thermometer, 1, some (.str [69]), none, none, none, none⟩] 0 []) 8
        = some (mkDescriptor
            ⟨8, .thermometer, 1, some (.str [69]), none, none, none, none⟩ 6)
    ∧ ((List.range ([6, 1] : List ℕ).length).map
          (fun i => (([6, 1] : List ℕ).take i).sum + ([6, 1] : List ℕ).getD i 0)).foldr max 0
        = ([6, 1] : List ℕ).sum := by
  have h := c4_amended
  refine ⟨h.1 voltPicoSlot _ 1 (by decide) rfl (by decide),
    (h.2.1 c4Config _ (by decide)).1,
    (h.2.1 c4Config
      [⟨7, .volt, 6, some (.str picoInternal), none, none, none, none⟩,
       ⟨8, .thermometer, 1, some (.str [69]), none, none, none, none⟩]
      (by decide)).2 (by decide) 1 (by decide),
    h.2.2 [6, 1]⟩

/-- When a byte list contains no `00 FF` pair, `bytes.find` locates the
terminator exactly at the end of that list in `list ++ 00 FF ++ rest`. -/
theorem findTerm_append (word rest : List ℕ)
    (h : ∀ i, (word.drop i).take 2 ≠ [0, 255]) :
    findTerm (word ++ 0 :: 255 :: rest) = some word.length := by
  induction word with
  | nil => simp [findTerm]
  | cons w ws ih =>
    have ih' := ih (fun i => h (i + 1))
    simp only [List.cons_append, findTerm, List.append_eq]
    have hcond : ¬ (w = 0 ∧ ((ws ++ 0 :: 255 :: rest).take 1 = [255])) := by
      rintro ⟨rfl, htk⟩
      cases ws with
      | nil => simp at htk
      | cons u us =>
        simp at htk
        exact h 0 (by simp [htk])
    rw [if_neg hcond, ih']
    rfl

/-- **C3** (confirmed).  `parseResponse` strips the first 14 bytes, then
extracts fields while more than 6 bytes remain: a type-0x01 field consumes 7
bytes and yields the pair of big-endian 16-bit integers at offset 2; a
type-0x03 field consumes 12 bytes with its 4-byte payload at offsets 7..11
(Python slice `[7:11]`), payload `7f ff ff ff` yielding the explicit empty
value; a type-0x04 field yields the text between offset 7 and the `00 FF`
terminator; results are keyed by field number with last-write-wins. -/
theorem c3_parseResponse :
    (∀ response, parseResponse response = parseLoop (response.drop 14) [])
    ∧ (∀ r acc, ¬ 6 < r.length → parseLoop r acc = some acc)
    ∧ (∀ r acc n v rest, 6 < r.length → getNextField r = some (n, v, rest) →
        parseLoop r acc = parseLoop rest (dictInsert acc n v))
    ∧ (∀ fn b2 b3 b4 b5 b6 rest,
        getNextField (fn :: 1 :: b2 :: b3 :: b4 :: b5 :: b6 :: rest)
          = some (fn, .pair (256 * b2 + b3) (256 * b4 + b5), rest))
    ∧ (∀ fn b2 b3 b4 b5 b6 b7 b8 b9 b10 b11 rest,
        getNextField
            (fn :: 3 :: b2 :: b3 :: b4 :: b5 :: b6 :: b7 :: b8 :: b9 :: b10 :: b11 :: rest)
          = some (fn,
              if [b7, b8, b9, b10] = [0x7f, 0xff, 0xff, 0xff] then .str []
              else .pair (256 * b7 + b8) (256 * b9 + b10),
              rest))
    ∧ (∀ fn b2 b3 b4 b5 b6 word rest, (∀ i, (word.drop i).take 2 ≠ [0, 255]) →
        getNextField
            (fn :: 4 :: b2 :: b3 :: b4 :: b5 :: b6 :: (word ++ 0 :: 255 :: rest))
          = some (fn, .str word, rest))
    ∧ (∀ (acc : List (ℕ × FieldVal)) n v, dictGet (dictInsert acc n v) n = some v)
    ∧ (∀ (acc : List (ℕ × FieldVal)) n m v, m ≠ n →
        dictGet (dictInsert acc n v) m = dictGet acc m) := by
  refine ⟨fun _ => rfl, parseLoop_exit, parseLoop_step, ?_, ?_, ?_,
    fun acc n v => dictGet_dictInsert_self acc n v,
    fun acc n m v h => dictGet_dictInsert_ne acc n m v h⟩
  · intro fn b2 b3 b4 b5 b6 rest
    simp [getNextField, be16]
  · intro fn b2 b3 b4 b5 b6 b7 b8 b9 b10 b11 rest
    simp [getNextField, be16]
    split_ifs <;> simp
  · intro fn b2 b3 b4 b5 b6 word rest h
    simp only [getNextField]
    norm_num
    rw [findTerm_append word rest h]
    have ht : (word ++ 0 :: 255 :: rest).take word.length = word :=
      List.take_left _ _
    have hd : (word ++ 0 :: 255 :: rest).drop (word.length + 2) = rest := by
      rw [show word ++ 0 :: 255 :: rest = (word ++ [0, 255]) ++ rest by simp,
        show word.length + 2 = (word ++ [0, 255]).length by simp]
      exact List.drop_left _ _
    show some (fn, FieldVal.str ((word ++ 0 :: 255 :: rest).take word.length),
        (word ++ 0 :: 255 :: rest).drop (word.length + 2))
      = some (fn, FieldVal.str word, rest)
    rw [ht, hd]

/-- Witness for `c3_parseResponse`: the loop-exit, loop-step and all three
field shapes applied to concrete byte sequences, and last-write-wins on a
concrete dict. -/
theorem c3_parseResponse_witness :
    parseLoop [1, 2, 3] [] = some []
    ∧ parseLoop [9, 1, 0, 10, 0, 20, 0] [] = parseLoop [] (dictInsert [] 9 (.pair 10 20))
    ∧ getNextField [9, 1, 0, 10, 0, 20, 0] = some (9, .pair 10 20, [])
    ∧ getNextField [5, 3, 0, 0, 0, 0, 0, 127, 255, 255, 255, 9] = some (5, .str [], [])
    ∧ getNextField [5, 4, 0, 0, 0, 0, 0, 65, 0, 255, 7] = some (5, .str [65], [7])
    ∧ dictGet (dictInsert [(9, FieldVal.pair 1 2)] 9 (.pair 3 4)) 9
        = some (.pair 3 4) := by
  have h := c3_parseResponse
  refine ⟨h.2.1 [1, 2, 3] [] (by decide),
    h.2.2.1 [9, 1, 0, 10, 0, 20, 0] [] 9 (.pair 10 20) [] (by decide) (by decide),
    h.2.2.2.1 9 0 10 0 20 0 [],
    ?_, ?_,
    h.2.2.2.2.2.2.1 [(9, FieldVal.pair 1 2)] 9 (.pair 3 4)⟩
  · have hc := h.2.2.2.2.1 5 0 0 0 0 0 127 255 255 255 9 []
    simpa using hc
  · exact h.2.2.2.2.2.1 5 0 0 0 0 0 [65] [7]
      (by intro i
          cases i with
          | zero => decide
          | succ j => simp)

end Pico
